import Mathlib

/-!
Verification of the log-stripper maintenance script `cleanup-logs.py`.

The script reads one file, applies 73 regular-expression substitutions with
empty replacement (`re.sub(pattern, '', content, flags=re.MULTILINE)` — the
flag is irrelevant because no pattern contains `^` or `$`), collapses runs of
three or more newlines (`re.sub(r'\n\n\n+', '\n\n', content)`), writes the
buffer back and prints a fixed summary.  The patterns use only literal
characters (including the escapes `\.` `\(` `\)`), the lazy wildcards `.*?`
(any character except newline) and `[\s\S]*?` (any character), and the greedy
class `[0-9]+`; this file embeds exactly that fragment of the regex language
with Python's matching priorities (leftmost match, lazy shortest-first, greedy
longest-first, global non-overlapping substitution).
-/

namespace CleanupLogs

/-- Tokens of the restricted regular-expression language used by the script:
a literal character, the greedy digit class `[0-9]+`, the greedy newline class
`\n+`, the lazy single-line wildcard `.*?` and the lazy any-character wildcard
`[\s\S]*?`. -/
inductive RTok where
  | lit (c : Char)
  | digits
  | nlPlus
  | lazyLine
  | lazyAll
deriving DecidableEq

/-- Greedy continuation for a Kleene plus whose first character was already
consumed: consume as many further characters of class `cls` as possible,
longest first, backtracking into the continuation `next` (Python greedy `+`). -/
def plusFrom (next : List Char → Option (List Char)) (cls : Char → Bool) :
    List Char → Option (List Char)
  | [] => next []
  | c :: s =>
    if cls c then
      match plusFrom next cls s with
      | some r => some r
      | none => next (c :: s)
    else next (c :: s)

/-- Lazy wildcard: try the continuation `next` at the current position first,
shortest match first (Python lazy `*?`); with `noNl` set the wildcard cannot
consume a newline (Python `.` without `DOTALL`). -/
def tryFrom (next : List Char → Option (List Char)) (noNl : Bool) :
    List Char → Option (List Char)
  | [] => next []
  | c :: s =>
    match next (c :: s) with
    | some r => some r
    | none => if noNl && c == '\n' then none else tryFrom next noNl s

/-- Anchored matcher: `matchToks ts s = some r` when the token list `ts`
matches a prefix of `s` leaving the remainder `r`, with Python `re`
backtracking priorities. -/
def matchToks : List RTok → List Char → Option (List Char)
  | [], s => some s
  | RTok.lit c :: ts, s =>
    match s with
    | [] => none
    | d :: s' => if c = d then matchToks ts s' else none
  | RTok.digits :: ts, s =>
    match s with
    | [] => none
    | d :: s' => if d.isDigit then plusFrom (matchToks ts) Char.isDigit s' else none
  | RTok.nlPlus :: ts, s =>
    match s with
    | [] => none
    | d :: s' => if d = '\n' then plusFrom (matchToks ts) (fun c => c == '\n') s' else none
  | RTok.lazyLine :: ts, s => tryFrom (matchToks ts) true s
  | RTok.lazyAll :: ts, s => tryFrom (matchToks ts) false s

/-- Fuel-indexed global substitution: scan the buffer left to right, replace
every non-overlapping match of the pattern by `repl`, and continue scanning
after the match (Python `re.sub` with a constant replacement).  Any
`fuel ≥ length of the buffer` gives the same result. -/
def substFuel (p : List RTok) (repl : List Char) : Nat → List Char → List Char
  | _, [] => []
  | 0, c :: s => c :: s
  | fuel + 1, c :: s =>
    match matchToks p (c :: s) with
    | some r =>
      if r.length ≤ s.length then repl ++ substFuel p repl fuel r
      else c :: substFuel p repl fuel s
    | none => c :: substFuel p repl fuel s

/-- `re.sub(p, repl, content)` for the restricted pattern language. -/
def reSub (p : List RTok) (repl : List Char) (content : List Char) : List Char :=
  substFuel p repl content.length content

/-- Literal token run built from a string. -/
def lits (s : String) : List RTok := s.data.map RTok.lit

/-- The ordered pattern catalogue `logs_to_remove` of `cleanup-logs.py`,
transcribed token for token (regex escapes `\.` `\(` `\)` become the plain
literal character). -/
def logs_to_remove : List (List RTok) := [
  -- Init logs
  lits "logger.info('🔌 INIT CONNECTION (v3)'," ++ [RTok.lazyLine] ++ lits ");",
  lits "logger.info('✅ STARTING SESSION (v3)');",
  lits "logger.info('✅ AGENT LOADED (v3)'," ++ [RTok.lazyLine] ++ lits ");",
  lits "logger.info('✅ INIT COMPLETE (v4)');",
  -- Deepgram streaming logs
  lits "logger.info('🎤 Creating Deepgram streaming connection with VAD');",
  lits "logger.info('✅ Deepgram FINAL transcript'," ++ [RTok.lazyLine] ++ lits ");",
  lits "logger.debug('⏳ Deepgram PARTIAL'," ++ [RTok.lazyLine] ++ lits ");",
  lits "logger.info('✅ Deepgram streaming STT initialized');",
  lits "logger.warn('⚠️ Deepgram not available - using batch STT (higher latency)');",
  -- VAD logs
  lits "logger.info('🔇 VAD: Speech ended - processing transcript');",
  lits "logger.warn('⚠️ VAD: Speech ended but no transcript available');",
  lits "logger.info('🔔 SILENCE (v4) - Deepgram ready'," ++ [RTok.lazyAll] ++ lits ");",
  -- Event handling logs
  lits "logger.info('Exotel event'," ++ [RTok.lazyAll] ++ lits ");",
  lits "logger.warn('Unknown Exotel event'," ++ [RTok.lazyAll] ++ lits ");",
  lits "logger.info('Exotel stream started'," ++ [RTok.lazyAll] ++ lits ");",
  lits "logger.warn('Media event received but no media data'," ++ [RTok.lazyAll] ++ lits ");",
  lits "logger.info('Captured stream_sid from media event'," ++ [RTok.lazyAll] ++ lits ");",
  lits "logger.debug('Ignoring outbound media track'," ++ [RTok.lazyAll] ++ lits ");",
  -- Speech processing logs
  lits "logger.info('🎤 SPEECH START (v3)'," ++ [RTok.lazyAll] ++ lits ");",
  lits "logger.info('🛑 STOP (v3)'," ++ [RTok.lazyLine] ++ lits ");",
  lits "logger.info('⚡ PROCESSING (v3)'," ++ [RTok.lazyLine] ++ lits ");",
  lits "logger.warn('❌ SKIP (v3)'," ++ [RTok.lazyAll] ++ lits ");",
  lits "logger.info('⏸️ STOP HANDLED (v3) - waiting for AI response');",
  -- Mark and greeting logs
  lits "logger.info('✅ MARK RECEIVED from Exotel (v13)'," ++ [RTok.lazyAll] ++ lits ");",
  lits "logger.info('✅ MARK SENT after greeting (v13)" ++ [RTok.lazyLine] ++ lits ");",
  lits "logger.warn('Failed to send mark message after greeting'," ++ [RTok.lazyAll] ++ lits ");",
  lits "logger.info('✅ MARK SENT after response (v" ++ [RTok.digits] ++ lits ")" ++ [RTok.lazyLine] ++ lits ");",
  lits "logger.warn('Failed to send mark message'," ++ [RTok.lazyAll] ++ lits ");",
  -- Greeting logs
  lits "logger.info('🎤 GENERATING GREETING (v13)'," ++ [RTok.lazyAll] ++ lits ");",
  lits "logger.info('✅ GREETING AUDIO READY (v13)'," ++ [RTok.lazyAll] ++ lits ");",
  lits "logger.info('✅ GREETING SENT (v13)');",
  -- LLM logs
  lits "logger.info('⚡ EARLY LLM START (v5 - Parallel)'," ++ [RTok.lazyAll] ++ lits ");",
  lits "logger.info('🚀 EARLY LLM PROCESSING (v5)'," ++ [RTok.lazyAll] ++ lits ");",
  lits "logger.info('⚡ LLM streaming started (while user still speaking)');",
  lits "logger.info('⚡ Early LLM sentence ready'," ++ [RTok.lazyLine] ++ lits ");",
  lits "logger.info('✅ Early LLM complete'," ++ [RTok.lazyAll] ++ lits ");",
  -- Transcript processing logs
  lits "logger.info('⚡ PROCESS FROM TRANSCRIPT (v5 - Parallel)'," ++ [RTok.lazyAll] ++ lits ");",
  lits "logger.warn('❌ PROCESS ABORT (v5) - no transcript');",
  lits "logger.info('✅ Early LLM already processed (v5)'," ++ [RTok.lazyAll] ++ lits ");",
  lits "logger.info('⚡ PARALLEL PROCESSING COMPLETE - Response already sent!');",
  lits "logger.info('👤 USER (v" ++ [RTok.digits] ++ lits " - Streaming):'," ++ [RTok.lazyLine] ++ lits ");",
  lits "logger.info('👤 USER (v" ++ [RTok.digits] ++ lits "):'," ++ [RTok.lazyLine] ++ lits ");",
  lits "logger.info('🤖 AI (v" ++ [RTok.digits] ++ lits " - Streaming):'," ++ [RTok.lazyLine] ++ lits ");",
  lits "logger.info('🤖 AI (v" ++ [RTok.digits] ++ lits "):'," ++ [RTok.lazyLine] ++ lits ");",
  -- End call logs
  lits "logger.info('🔚 END CALL PHRASE DETECTED'," ++ [RTok.lazyAll] ++ lits ");",
  -- Prompt building logs
  lits "logger.info('🤖 Building LLM prompt'," ++ [RTok.lazyAll] ++ lits ");",
  lits "logger.debug('System prompt built'," ++ [RTok.lazyAll] ++ lits ");",
  -- RAG logs
  lits "logger.info('🔍 RAG: Query is relevant, searching knowledge base');",
  lits "logger.info('✅ RAG: Found relevant context'," ++ [RTok.lazyAll] ++ lits ");",
  lits "logger.info('⚠️ RAG: No relevant context found');",
  lits "logger.debug('RAG: Query not relevant for KB (conversational/greeting)');",
  -- Batch STT logs
  lits "logger.info('🎤 PROCESS START (v3)'," ++ [RTok.lazyAll] ++ lits ");",
  lits "logger.warn('❌ PROCESS ABORT (v3) - no audio');",
  lits "logger.info('🎙️ TRANSCRIBING (v3)'," ++ [RTok.lazyLine] ++ lits ");",
  lits "logger.info('Using Deepgram for fast transcription');",
  lits "logger.warn('⚠️ Deepgram returned empty transcript, falling back to Whisper');",
  lits "logger.info('✅ Whisper fallback result'," ++ [RTok.lazyAll] ++ lits ");",
  lits "logger.info('Deepgram not available, falling back to Whisper');",
  lits "logger.warn('⚠️ No speech detected in audio (both Deepgram and Whisper returned empty)');",
  -- TTS logs
  lits "logger.info('🎤 STREAMING TTS (v7)'," ++ [RTok.lazyLine] ++ lits ");",
  lits "logger.info('✅ STREAMING TTS COMPLETE (v7)'," ++ [RTok.lazyAll] ++ lits ");",
  lits "logger.warn('WebSocket not open, skipping chunk'," ++ [RTok.lazyAll] ++ lits ");",
  lits "logger.warn('WebSocket not open, cannot flush buffer'," ++ [RTok.lazyAll] ++ lits ");",
  lits "logger.debug('Flushed remaining audio'," ++ [RTok.lazyAll] ++ lits ");",
  lits "logger.warn('WebSocket closed mid-stream, stopping audio transmission'," ++ [RTok.lazyAll] ++ lits ");",
  -- Final message logs
  lits "logger.info('🎤 SENDING FINAL MESSAGE (v13)'," ++ [RTok.lazyLine] ++ lits ");",
  lits "logger.info('⏳ WAITING FOR FINAL MESSAGE (v13)'," ++ [RTok.lazyAll] ++ lits ");",
  lits "logger.info('✅ FINAL MESSAGE COMPLETE (v13)');",
  -- Disconnect logs
  lits "logger.info('🔌 DISCONNECTED (v4)'," ++ [RTok.lazyLine] ++ lits ");",
  lits "logger.info('Closing Deepgram streaming connection');",
  lits "logger.info('✅ Deepgram connection closed');",
  lits "logger.info('⏳ DELAY CLEANUP (v4) - 30s');",
  lits "logger.info('🗑️ DELETE SESSION (v4)');"
]

/-- The substitution loop: one global empty-replacement pass per pattern, in
catalogue order, each pass working on the buffer left by the previous pass. -/
def removeLogs (content : List Char) : List Char :=
  logs_to_remove.foldl (fun c p => reSub p [] c) content

/-- The pattern `\n\n\n+` of the final blank-line cleanup. -/
def emptyLinesPattern : List RTok := [RTok.lit '\n', RTok.lit '\n', RTok.nlPlus]

/-- Two newline characters — the replacement string of the blank-line cleanup. -/
def nl2 : List Char := ['\n', '\n']

/-- The whole text transformation of the script: the 73 pattern substitutions
in order, then the blank-line collapse. -/
def transform (content : List Char) : List Char :=
  reSub emptyLinesPattern nl2 (removeLogs content)

/-- `transform`, packaged on `String`. -/
def transformStr (s : String) : String := String.mk (transform s.data)

/-- Boolean prefix test on character lists. -/
def isPrefixB : List Char → List Char → Bool
  | [], _ => true
  | _ :: _, [] => false
  | a :: as, b :: bs => a == b && isPrefixB as bs

/-- Boolean substring test: does `needle` occur contiguously in the buffer? -/
def containsB (needle : List Char) : List Char → Bool
  | [] => isPrefixB needle []
  | c :: t => isPrefixB needle (c :: t) || containsB needle t

/-- Boolean prefix test on token lists. -/
def startsWithToks : List RTok → List RTok → Bool
  | [], _ => true
  | _ :: _, [] => false
  | a :: as, b :: bs => a == b && startsWithToks as bs

/-- Lines of a buffer, splitting at every newline (Python `str.split('\n')`:
a trailing newline yields a final empty line). -/
def splitLines : List Char → List (List Char)
  | [] => [[]]
  | c :: t =>
    if c = '\n' then [] :: splitLines t
    else
      match splitLines t with
      | [] => [[c]]
      | l :: ls => (c :: l) :: ls

/-- The buffer does not begin with a newline. -/
def headNotNl : List Char → Bool
  | [] => true
  | c :: _ => !(c == '\n')

/-- The buffer does not end with a newline. -/
def lastNotNl : List Char → Bool
  | [] => true
  | [c] => !(c == '\n')
  | _ :: c :: t => lastNotNl (c :: t)

/-- Reference model of the blank-line collapse, written from the spec's words
"collapse every run of three or more consecutive newline characters into
exactly two": `k` counts the newlines of the pending run; a run of three or
more is emitted as two newlines, a shorter run is emitted unchanged. -/
def collapseAux (k : Nat) : List Char → List Char
  | [] => List.replicate (if 3 ≤ k then 2 else k) '\n'
  | c :: t =>
    if c = '\n' then collapseAux (k + 1) t
    else List.replicate (if 3 ≤ k then 2 else k) '\n' ++ c :: collapseAux 0 t

/-- The blank-line collapse as the spec describes it, on a whole buffer. -/
def collapseSpec (s : List Char) : List Char := collapseAux 0 s

/-- Classifier of the protected lines of the preservation claim: the line
contains a `logger.error` call, or an `.info`/`.debug` call whose message
begins with the stopwatch marker. -/
def protectedLine (l : List Char) : Bool :=
  containsB "logger.error(".data l || containsB ".info('⏱️".data l ||
    containsB ".debug('⏱️".data l

/-- State of the single target file as the script can observe it: whether the
path opens for reading, whether the bytes decode as UTF-8, and the decoded
text content. -/
structure ScriptFile where
  readable : Bool
  utf8 : Bool
  content : String

/-- The fixed success summary printed by the script. -/
def summaryLines : List String :=
  ["Cleaned up logs successfully!",
   "Removed verbose logs, kept only:",
   "  - Error logs (logger.error)",
   "  - Performance logs (PERFORMANCE)",
   "  - Critical operational logs"]

/-- Straight-line model of one run of the script: the read (`open` + `read`)
happens before any write, so a read or decode failure aborts the run before
the write `open(file_path, 'w')`, the file keeps its prior state and nothing
is printed; on success the transformed buffer overwrites the file in place and
the fixed summary is printed.  There is no retry and no partial write. -/
def runScript (f : ScriptFile) : ScriptFile × Except Unit (List String) :=
  if f.readable && f.utf8 then
    ({ f with content := transformStr f.content }, Except.ok summaryLines)
  else (f, Except.error ())

/-- Sequential application of a pattern list, one global empty-replacement
substitution pass per pattern, each pass over the buffer left by the previous
one. -/
def applyAll : List (List RTok) → List Char → List Char
  | [], content => content
  | p :: ps, content => applyAll ps (reSub p [] content)

/-! Basic facts about the matcher and the substitution scanner. -/

theorem substFuel_congr (p : List RTok) (repl : List Char) :
    ∀ f₁ f₂ s, s.length ≤ f₁ → s.length ≤ f₂ →
      substFuel p repl f₁ s = substFuel p repl f₂ s := by
  intro f₁
  induction f₁ with
  | zero =>
    intro f₂ s h₁ _
    have hs : s = [] := List.eq_nil_of_length_eq_zero (Nat.le_zero.mp h₁)
    subst hs
    cases f₂ <;> rfl
  | succ f ih =>
    intro f₂ s h₁ h₂
    cases s with
    | nil => cases f₂ <;> rfl
    | cons c s' =>
      simp only [List.length_cons] at h₁ h₂
      cases f₂ with
      | zero => exact absurd h₂ (by omega)
      | succ g =>
        have hf : s'.length ≤ f := by omega
        have hg : s'.length ≤ g := by omega
        simp only [substFuel]
        cases hm : matchToks p (c :: s') with
        | none => rw [ih g s' hf hg]
        | some r =>
          dsimp only
          by_cases hr : r.length ≤ s'.length
          · rw [if_pos hr, if_pos hr, ih g r (le_trans hr hf) (le_trans hr hg)]
          · rw [if_neg hr, if_neg hr, ih g s' hf hg]

theorem reSub_nil (p : List RTok) (repl : List Char) : reSub p repl [] = [] := rfl

theorem reSub_cons_match {p : List RTok} (repl : List Char) {c : Char} {s r : List Char}
    (h : matchToks p (c :: s) = some r) (hr : r.length ≤ s.length) :
    reSub p repl (c :: s) = repl ++ reSub p repl r := by
  show substFuel p repl (s.length + 1) (c :: s) = _
  simp only [substFuel, h, if_pos hr]
  exact congrArg (repl ++ ·) (substFuel_congr p repl s.length r.length r hr le_rfl)

theorem reSub_cons_none {p : List RTok} (repl : List Char) {c : Char} {s : List Char}
    (h : matchToks p (c :: s) = none) :
    reSub p repl (c :: s) = c :: reSub p repl s := by
  show substFuel p repl (s.length + 1) (c :: s) = _
  simp only [substFuel, h]
  rfl

theorem substFuel_nil_length (p : List RTok) :
    ∀ f s, (substFuel p [] f s).length ≤ s.length := by
  intro f
  induction f with
  | zero => intro s; cases s <;> simp [substFuel]
  | succ f ih =>
    intro s
    cases s with
    | nil => simp [substFuel]
    | cons c s' =>
      simp only [substFuel]
      cases hm : matchToks p (c :: s') with
      | none => simpa using ih s'
      | some r =>
        dsimp only
        by_cases hr : r.length ≤ s'.length
        · rw [if_pos hr]
          simp only [List.nil_append, List.length_cons]
          exact le_trans (ih r) (le_trans hr (Nat.le_succ _))
        · rw [if_neg hr]
          simpa using ih s'

theorem reSub_nil_repl_length (p : List RTok) (s : List Char) :
    (reSub p [] s).length ≤ s.length :=
  substFuel_nil_length p s.length s

theorem matchToks_litrun :
    ∀ (pre : List Char) (ts : List RTok) (s r : List Char),
      matchToks (pre.map RTok.lit ++ ts) s = some r → isPrefixB pre s = true := by
  intro pre
  induction pre with
  | nil => intro ts s r _; rfl
  | cons a pre ih =>
    intro ts s r h
    cases s with
    | nil => simp [matchToks] at h
    | cons b s' =>
      simp only [List.map_cons, List.cons_append, matchToks] at h
      by_cases hab : a = b
      · rw [if_pos hab] at h
        simpa [isPrefixB, hab] using ih ts s' r h
      · rw [if_neg hab] at h
        exact absurd h (by simp)

theorem startsWithToks_append :
    ∀ (pre p : List RTok), startsWithToks pre p = true → ∃ ts, p = pre ++ ts := by
  intro pre
  induction pre with
  | nil => intro p _; exact ⟨p, rfl⟩
  | cons a pre ih =>
    intro p h
    cases p with
    | nil => simp [startsWithToks] at h
    | cons b p' =>
      simp only [startsWithToks, Bool.and_eq_true, beq_iff_eq] at h
      obtain ⟨ts, hts⟩ := ih p' h.2
      exact ⟨ts, by rw [h.1, hts]; rfl⟩

theorem reSub_id_of_not_contains {p : List RTok} {pre : List Char}
    (hguard : ∀ u r, matchToks p u = some r → isPrefixB pre u = true)
    (repl : List Char) :
    ∀ f s, containsB pre s = false → substFuel p repl f s = s := by
  intro f
  induction f with
  | zero => intro s _; cases s <;> rfl
  | succ f ih =>
    intro s hs
    cases s with
    | nil => rfl
    | cons c s' =>
      simp only [containsB, Bool.or_eq_false_iff] at hs
      simp only [substFuel]
      cases hm : matchToks p (c :: s') with
      | none => rw [ih s' hs.2]
      | some r => exact absurd (hguard _ _ hm) (by simp [hs.1])

/-! Characterization of the blank-line pattern `\n\n\n+` and of its global
substitution as the run-collapsing function `collapseSpec`. -/

theorem dropWhile_length_le (p : Char → Bool) :
    ∀ l : List Char, (l.dropWhile p).length ≤ l.length := by
  intro l
  induction l with
  | nil => simp
  | cons c t ih =>
    by_cases hc : p c = true
    · simp only [List.dropWhile_cons, hc, if_true, List.length_cons]
      omega
    · simp [List.dropWhile_cons, hc]

theorem plusFrom_top {next : List Char → Option (List Char)}
    (hnext : ∀ u, next u = some u) (cls : Char → Bool) :
    ∀ t, plusFrom next cls t = some (t.dropWhile cls) := by
  intro t
  induction t with
  | nil => rw [plusFrom, hnext]; rfl
  | cons c t' ih =>
    simp only [plusFrom]
    cases hc : cls c with
    | false => simp [hc, List.dropWhile_cons, hnext]
    | true => simp [hc, List.dropWhile_cons, ih]

theorem matchToks_empty_lines_pos (t : List Char) :
    matchToks emptyLinesPattern ('\n' :: '\n' :: '\n' :: t) =
      some (t.dropWhile (fun c => c == '\n')) := by
  simp [emptyLinesPattern, matchToks, plusFrom_top (fun u => rfl)]

theorem matchToks_empty_lines_neg :
    ∀ s, isPrefixB ['\n', '\n', '\n'] s = false → matchToks emptyLinesPattern s = none := by
  intro s h
  cases s with
  | nil => rfl
  | cons a s₁ =>
    by_cases ha : a = '\n'
    · subst ha
      cases s₁ with
      | nil => rfl
      | cons b s₂ =>
        by_cases hb : b = '\n'
        · subst hb
          cases s₂ with
          | nil => rfl
          | cons c s₃ =>
            by_cases hc : c = '\n'
            · subst hc; simp [isPrefixB] at h
            · simp [emptyLinesPattern, matchToks, hc]
        · simp [emptyLinesPattern, matchToks, Ne.symm hb]
    · simp [emptyLinesPattern, matchToks, Ne.symm ha]

theorem matchToks_empty_lines_some_prefix :
    ∀ u r, matchToks emptyLinesPattern u = some r →
      isPrefixB ['\n', '\n', '\n'] u = true := by
  intro u r h
  cases hp : isPrefixB ['\n', '\n', '\n'] u with
  | true => rfl
  | false => rw [matchToks_empty_lines_neg u hp] at h; exact absurd h (by simp)

theorem collapseAux_cons_nl (k : Nat) (t : List Char) :
    collapseAux k ('\n' :: t) = collapseAux (k + 1) t := by
  simp [collapseAux]

theorem collapseAux_cons_other {c : Char} (hc : c ≠ '\n') (k : Nat) (t : List Char) :
    collapseAux k (c :: t) =
      List.replicate (if 3 ≤ k then 2 else k) '\n' ++ c :: collapseAux 0 t := by
  simp [collapseAux, hc]

theorem collapseAux_replicate :
    ∀ (m j : Nat) (u : List Char),
      collapseAux j (List.replicate m '\n' ++ u) = collapseAux (j + m) u := by
  intro m
  induction m with
  | zero => intro j u; simp
  | succ m ih =>
    intro j u
    rw [List.replicate_succ, List.cons_append, collapseAux_cons_nl, ih (j + 1) u]
    rw [show j + 1 + m = j + (m + 1) from by omega]

theorem collapseAux_big :
    ∀ (t : List Char) (j : Nat), 3 ≤ j →
      collapseAux j t = nl2 ++ collapseAux 0 (t.dropWhile (fun c => c == '\n')) := by
  intro t
  induction t with
  | nil =>
    intro j hj
    show List.replicate (if 3 ≤ j then 2 else j) '\n' = _
    rw [if_pos hj]
    rfl
  | cons c t' ih =>
    intro j hj
    by_cases hc : c = '\n'
    · subst hc
      rw [collapseAux_cons_nl, ih (j + 1) (by omega)]
      simp [List.dropWhile_cons]
    · rw [collapseAux_cons_other hc, if_pos hj]
      simp [List.dropWhile_cons, hc, collapseAux_cons_other hc 0, nl2, List.replicate]

theorem collapseAux_shift {t : List Char}
    (h : isPrefixB ['\n', '\n', '\n'] ('\n' :: t) = false) :
    '\n' :: collapseAux 0 t = collapseAux 1 t := by
  cases t with
  | nil => rfl
  | cons d t' =>
    by_cases hd : d = '\n'
    · subst hd
      cases t' with
      | nil => rfl
      | cons e t'' =>
        by_cases he : e = '\n'
        · subst he; simp [isPrefixB] at h
        · rw [collapseAux_cons_nl, collapseAux_cons_nl,
            collapseAux_cons_other he, collapseAux_cons_other he]
          norm_num [List.replicate]
    · rw [collapseAux_cons_other hd, collapseAux_cons_other hd]
      norm_num [List.replicate]

theorem reSub_empty_lines_eq :
    ∀ (n : Nat) (s : List Char), s.length ≤ n →
      reSub emptyLinesPattern nl2 s = collapseAux 0 s := by
  intro n
  induction n with
  | zero =>
    intro s h
    have hs : s = [] := List.eq_nil_of_length_eq_zero (Nat.le_zero.mp h)
    subst hs; rfl
  | succ n ih =>
    intro s h
    cases s with
    | nil => rfl
    | cons c t =>
      simp only [List.length_cons] at h
      by_cases hc : c = '\n'
      · subst hc
        by_cases h3 : isPrefixB ['\n', '\n', '\n'] ('\n' :: t) = true
        · obtain ⟨t₂, rfl⟩ : ∃ t₂, t = '\n' :: '\n' :: t₂ := by
            cases t with
            | nil => simp [isPrefixB] at h3
            | cons b t₁ =>
              cases t₁ with
              | nil => simp [isPrefixB] at h3
              | cons d t₂ =>
                simp only [isPrefixB, Bool.and_eq_true, beq_iff_eq] at h3
                exact ⟨t₂, by rw [← h3.2.1, ← h3.2.2.1]⟩
          have hlen : (t₂.dropWhile (fun c => c == '\n')).length ≤ ('\n' :: '\n' :: t₂).length := by
            have := dropWhile_length_le (fun c => c == '\n') t₂
            simp only [List.length_cons]
            omega
          rw [reSub_cons_match nl2 (matchToks_empty_lines_pos t₂) hlen]
          rw [ih (t₂.dropWhile (fun c => c == '\n')) (by
            have := dropWhile_length_le (fun c => c == '\n') t₂
            simp only [List.length_cons] at h
            omega)]
          rw [collapseAux_cons_nl, collapseAux_cons_nl, collapseAux_cons_nl,
            collapseAux_big t₂ 3 (by omega)]
        · have hno : matchToks emptyLinesPattern ('\n' :: t) = none :=
            matchToks_empty_lines_neg _ (by simpa using h3)
          rw [reSub_cons_none nl2 hno, ih t (by omega), collapseAux_cons_nl]
          exact collapseAux_shift (by simpa using h3)
      · have hno : matchToks emptyLinesPattern (c :: t) = none := by
          apply matchToks_empty_lines_neg
          simp [isPrefixB, Ne.symm hc]
        rw [reSub_cons_none nl2 hno, ih t (by omega), collapseAux_cons_other hc]
        simp

theorem reSub_empty_lines (s : List Char) :
    reSub emptyLinesPattern nl2 s = collapseSpec s :=
  reSub_empty_lines_eq s.length s le_rfl

/-! The collapse output has no run of three newlines, so a second collapse
pass is the identity; length bounds; identity of all passes on buffers without
an occurrence of `logger.`. -/

theorem containsB_nl3_pad :
    ∀ (j : Nat), j ≤ 2 → ∀ {c : Char}, c ≠ '\n' → ∀ u,
      containsB ['\n', '\n', '\n'] (List.replicate j '\n' ++ c :: u) =
        containsB ['\n', '\n', '\n'] u := by
  intro j hj
  interval_cases j <;> intro c hc u <;>
    simp [containsB, isPrefixB, List.replicate,
      beq_eq_false_iff_ne.mpr (Ne.symm hc)]

theorem containsB_nl3_replicate :
    ∀ j, j ≤ 2 → containsB ['\n', '\n', '\n'] (List.replicate j '\n') = false := by
  intro j hj
  interval_cases j <;> decide

theorem collapseAux_no_triple : ∀ (s : List Char) (k : Nat),
    containsB ['\n', '\n', '\n'] (collapseAux k s) = false := by
  intro s
  induction s with
  | nil =>
    intro k
    show containsB _ (List.replicate (if 3 ≤ k then 2 else k) '\n') = false
    by_cases hk : 3 ≤ k
    · rw [if_pos hk]; decide
    · rw [if_neg hk]; exact containsB_nl3_replicate k (by omega)
  | cons c t ih =>
    intro k
    by_cases hc : c = '\n'
    · subst hc; rw [collapseAux_cons_nl]; exact ih (k + 1)
    · rw [collapseAux_cons_other hc]
      by_cases hk : 3 ≤ k
      · rw [if_pos hk, containsB_nl3_pad 2 (by omega) hc]; exact ih 0
      · rw [if_neg hk, containsB_nl3_pad k (by omega) hc]; exact ih 0

theorem reSub_empty_lines_id {s : List Char}
    (h : containsB ['\n', '\n', '\n'] s = false) :
    reSub emptyLinesPattern nl2 s = s :=
  reSub_id_of_not_contains matchToks_empty_lines_some_prefix nl2 s.length s h

theorem transform_collapse_again (s : List Char) :
    reSub emptyLinesPattern nl2 (transform s) = transform s := by
  have h : transform s = collapseAux 0 (removeLogs s) := reSub_empty_lines (removeLogs s)
  rw [h]
  exact reSub_empty_lines_id (collapseAux_no_triple (removeLogs s) 0)

theorem collapseAux_length : ∀ (s : List Char) (k : Nat),
    (collapseAux k s).length ≤ (if 3 ≤ k then 2 else k) + s.length := by
  intro s
  induction s with
  | nil => intro k; simp [collapseAux]
  | cons c t ih =>
    intro k
    by_cases hc : c = '\n'
    · subst hc
      rw [collapseAux_cons_nl, List.length_cons]
      have h1 := ih (k + 1)
      by_cases hk3 : 3 ≤ k
      · rw [if_pos hk3]; rw [if_pos (by omega)] at h1; omega
      · rw [if_neg hk3]
        by_cases hk2 : 3 ≤ k + 1
        · rw [if_pos hk2] at h1; omega
        · rw [if_neg hk2] at h1; omega
    · rw [collapseAux_cons_other hc]
      have h1 := ih 0
      rw [if_neg (by omega)] at h1
      simp only [List.length_append, List.length_replicate, List.length_cons]
      omega

theorem foldl_reSub_length : ∀ (l : List (List RTok)) (s : List Char),
    (l.foldl (fun c p => reSub p [] c) s).length ≤ s.length := by
  intro l
  induction l with
  | nil => intro s; simp
  | cons p ps ih =>
    intro s
    simp only [List.foldl_cons]
    exact le_trans (ih (reSub p [] s)) (reSub_nil_repl_length p s)

theorem transform_length_le (s : List Char) : (transform s).length ≤ s.length := by
  have h1 : transform s = collapseAux 0 (removeLogs s) := reSub_empty_lines (removeLogs s)
  rw [h1]
  have h2 := collapseAux_length (removeLogs s) 0
  rw [if_neg (by omega)] at h2
  exact le_trans (by simpa using h2) (foldl_reSub_length logs_to_remove s)

theorem logs_heads :
    logs_to_remove.all (startsWithToks (lits "logger.")) = true := by decide

theorem reSub_pattern_id {p : List RTok} (hp : p ∈ logs_to_remove) {s : List Char}
    (hs : containsB "logger.".data s = false) : reSub p [] s = s := by
  have hall := logs_heads
  rw [List.all_eq_true] at hall
  obtain ⟨ts, rfl⟩ := startsWithToks_append _ _ (hall p hp)
  refine reSub_id_of_not_contains ?_ [] s.length s hs
  intro u r h
  exact matchToks_litrun "logger.".data ts u r h

theorem foldl_id_of_no_logger : ∀ (l : List (List RTok)),
    (∀ p ∈ l, p ∈ logs_to_remove) → ∀ s, containsB "logger.".data s = false →
      l.foldl (fun c p => reSub p [] c) s = s := by
  intro l
  induction l with
  | nil => intro _ s _; rfl
  | cons p ps ih =>
    intro hmem s hs
    simp only [List.foldl_cons]
    rw [reSub_pattern_id (hmem p (by simp)) hs]
    exact ih (fun q hq => hmem q (by simp [hq])) s hs

/-! Trailing-content modes: `.*?\);` never crosses a newline and stops at the
first `);`, `[\s\S]*?\);` may cross newlines and stops at the first `);`. -/

/-- Shape check: every lazy wildcard of a pattern is the trailing-content
matcher, immediately followed by the two closing literal tokens `)` `;` which
end the pattern. -/
def shapeOK : List RTok → Bool
  | [] => true
  | RTok.lazyLine :: rest => rest == [RTok.lit ')', RTok.lit ';']
  | RTok.lazyAll :: rest => rest == [RTok.lit ')', RTok.lit ';']
  | _ :: rest => shapeOK rest

theorem closeSemi_of (x : List Char) :
    matchToks [RTok.lit ')', RTok.lit ';'] (')' :: ';' :: x) = some x := by
  simp [matchToks]

theorem closeSemi_some : ∀ (u r : List Char),
    matchToks [RTok.lit ')', RTok.lit ';'] u = some r → u = ')' :: ';' :: r := by
  intro u r h
  match u with
  | [] => simp [matchToks] at h
  | [a] =>
    by_cases ha : ')' = a <;> simp [matchToks, ha] at h
  | a :: b :: u'' =>
    by_cases ha : ')' = a
    · by_cases hb : ';' = b
      · subst ha; subst hb
        simp only [closeSemi_of, Option.some.injEq] at h
        rw [h]
      · subst ha; simp [matchToks, hb] at h
    · simp [matchToks, ha] at h

theorem tryFrom_closeSemi :
    ∀ (noNl : Bool) (s r : List Char),
      tryFrom (matchToks [RTok.lit ')', RTok.lit ';']) noNl s = some r →
      ∃ mid, s = mid ++ ')' :: ';' :: r ∧
        containsB [')', ';'] mid = false ∧
        (noNl = true → mid.all (fun d => !(d == '\n')) = true) := by
  intro noNl s
  induction s with
  | nil => intro r h; rw [tryFrom] at h; simp [matchToks] at h
  | cons c s' ih =>
    intro r h
    rw [tryFrom] at h
    cases hn : matchToks [RTok.lit ')', RTok.lit ';'] (c :: s') with
    | some r' =>
      rw [hn] at h
      have hr : r' = r := by simpa using h
      have hu := closeSemi_some _ _ hn
      exact ⟨[], by rw [← hr]; exact hu, rfl, fun _ => rfl⟩
    | none =>
      rw [hn] at h
      by_cases hcnl : (noNl && c == '\n') = true
      · rw [if_pos hcnl] at h; exact absurd h (by simp)
      · rw [if_neg hcnl] at h
        obtain ⟨mid, hmid, hcs, hall⟩ := ih r h
        refine ⟨c :: mid, by simp [hmid], ?_, ?_⟩
        · simp only [containsB, Bool.or_eq_false_iff]
          refine ⟨?_, hcs⟩
          cases hpf : isPrefixB [')', ';'] (c :: mid) with
          | false => rfl
          | true =>
            exfalso
            simp only [isPrefixB, Bool.and_eq_true, beq_iff_eq] at hpf
            obtain ⟨hc1, hc2⟩ := hpf
            cases mid with
            | nil => simp [isPrefixB] at hc2
            | cons m mid₂ =>
              simp only [isPrefixB, Bool.and_eq_true, beq_iff_eq] at hc2
              have hm : ';' = m := hc2.1
              subst hc1; subst hm
              rw [hmid] at hn
              rw [List.cons_append, closeSemi_of] at hn
              exact absurd hn (by simp)
        · intro hN
          subst hN
          have hcnl' : (c == '\n') = false := by
            cases hcb : c == '\n'
            · rfl
            · exact absurd (by rw [hcb]; rfl) hcnl
          simp [List.all_cons, hcnl', hall rfl]

theorem lazyLine_mode (s r : List Char)
    (h : matchToks [RTok.lazyLine, RTok.lit ')', RTok.lit ';'] s = some r) :
    ∃ mid, s = mid ++ ')' :: ';' :: r ∧
      containsB [')', ';'] mid = false ∧
      mid.all (fun d => !(d == '\n')) = true := by
  obtain ⟨mid, h1, h2, h3⟩ := tryFrom_closeSemi true s r h
  exact ⟨mid, h1, h2, h3 rfl⟩

theorem lazyAll_mode (s r : List Char)
    (h : matchToks [RTok.lazyAll, RTok.lit ')', RTok.lit ';'] s = some r) :
    ∃ mid, s = mid ++ ')' :: ';' :: r ∧ containsB [')', ';'] mid = false := by
  obtain ⟨mid, h1, h2, _⟩ := tryFrom_closeSemi false s r h
  exact ⟨mid, h1, h2⟩

/-! Non-blank lines survive the blank-line collapse. -/

theorem splitLines_cons_nl (t : List Char) :
    splitLines ('\n' :: t) = [] :: splitLines t := by
  simp [splitLines]

theorem splitLines_cons_other {c : Char} (hc : c ≠ '\n') (t : List Char)
    {l : List Char} {ls : List (List Char)} (h : splitLines t = l :: ls) :
    splitLines (c :: t) = (c :: l) :: ls := by
  simp only [splitLines, if_neg hc, h]

theorem splitLines_head : ∀ s : List Char,
    ∃ ls, splitLines s = s.takeWhile (fun d => !(d == '\n')) :: ls := by
  intro s
  induction s with
  | nil => exact ⟨[], rfl⟩
  | cons c t ih =>
    by_cases hc : c = '\n'
    · subst hc
      exact ⟨splitLines t, by rw [splitLines_cons_nl]; simp [List.takeWhile_cons]⟩
    · obtain ⟨ls, hls⟩ := ih
      refine ⟨ls, ?_⟩
      rw [splitLines_cons_other hc t hls]
      simp [List.takeWhile_cons, beq_eq_false_iff_ne.mpr hc]

theorem collapseAux_head_nl : ∀ (t : List Char) (k : Nat), 1 ≤ k →
    ∃ u, collapseAux k t = '\n' :: u := by
  intro t
  induction t with
  | nil =>
    intro k hk
    show ∃ u, List.replicate (if 3 ≤ k then 2 else k) '\n' = '\n' :: u
    by_cases h3 : 3 ≤ k
    · exact ⟨['\n'], by rw [if_pos h3]; rfl⟩
    · refine ⟨List.replicate (k - 1) '\n', ?_⟩
      rw [if_neg h3]
      obtain ⟨k', rfl⟩ : ∃ k', k = k' + 1 := ⟨k - 1, by omega⟩
      simp [List.replicate_succ]
  | cons c t' ih =>
    intro k hk
    by_cases hc : c = '\n'
    · subst hc; rw [collapseAux_cons_nl]; exact ih (k + 1) (by omega)
    · rw [collapseAux_cons_other hc]
      by_cases h3 : 3 ≤ k
      · exact ⟨'\n' :: c :: collapseAux 0 t', by rw [if_pos h3]; rfl⟩
      · interval_cases k
        · exact ⟨c :: collapseAux 0 t', by simp [List.replicate]⟩
        · exact ⟨'\n' :: c :: collapseAux 0 t', by simp [List.replicate]⟩

theorem collapseAux_takeWhile : ∀ t : List Char,
    (collapseAux 0 t).takeWhile (fun d => !(d == '\n')) =
      t.takeWhile (fun d => !(d == '\n')) := by
  intro t
  induction t with
  | nil => rfl
  | cons c t' ih =>
    by_cases hc : c = '\n'
    · subst hc
      rw [collapseAux_cons_nl]
      obtain ⟨u, hu⟩ := collapseAux_head_nl t' 1 le_rfl
      rw [hu]
      simp [List.takeWhile_cons]
    · rw [collapseAux_cons_other hc]
      have h0 : (if 3 ≤ 0 then 2 else 0) = 0 := rfl
      rw [h0]
      simp [List.takeWhile_cons, beq_eq_false_iff_ne.mpr hc, ih]

theorem splitLines_collapse_head : ∀ t : List Char, ∃ l ls ls',
    splitLines t = l :: ls ∧ splitLines (collapseAux 0 t) = l :: ls' := by
  intro t
  obtain ⟨ls, h1⟩ := splitLines_head t
  obtain ⟨ls', h2⟩ := splitLines_head (collapseAux 0 t)
  rw [collapseAux_takeWhile t] at h2
  exact ⟨_, ls, ls', h1, h2⟩

theorem splitLines_replicate : ∀ (m : Nat) (u : List Char),
    splitLines (List.replicate m '\n' ++ u) = List.replicate m [] ++ splitLines u := by
  intro m
  induction m with
  | zero => intro u; simp
  | succ m ih =>
    intro u
    simp [List.replicate_succ, splitLines_cons_nl, ih]

theorem nl_run_decomp : ∀ s : List Char,
    s = List.replicate (s.takeWhile (fun d => d == '\n')).length '\n' ++
        s.dropWhile (fun d => d == '\n') ∧
      headNotNl (s.dropWhile (fun d => d == '\n')) = true := by
  intro s
  induction s with
  | nil => exact ⟨rfl, rfl⟩
  | cons c t ih =>
    by_cases hc : c = '\n'
    · subst hc
      constructor
      · simp only [List.takeWhile_cons, beq_self_eq_true, if_true, List.length_cons,
          List.dropWhile_cons, List.replicate_succ, List.cons_append]
        exact congrArg ('\n' :: ·) ih.1
      · simp only [List.dropWhile_cons, beq_self_eq_true, if_true]
        exact ih.2
    · have hcb : (c == '\n') = false := beq_eq_false_iff_ne.mpr hc
      constructor
      · simp [List.takeWhile_cons, List.dropWhile_cons, hcb]
      · simp [List.dropWhile_cons, hcb, headNotNl]

theorem nl_run_decomp' (t : List Char) :
    ∃ m w, '\n' :: t = List.replicate (m + 1) '\n' ++ w ∧ headNotNl w = true ∧
      w.length ≤ t.length := by
  obtain ⟨hdec, hw⟩ := nl_run_decomp ('\n' :: t)
  have hm1 : 1 ≤ (('\n' :: t).takeWhile (fun d => d == '\n')).length := by
    simp [List.takeWhile_cons]
  refine ⟨(('\n' :: t).takeWhile (fun d => d == '\n')).length - 1,
    ('\n' :: t).dropWhile (fun d => d == '\n'), ?_, hw, ?_⟩
  · rw [show (('\n' :: t).takeWhile (fun d => d == '\n')).length - 1 + 1 =
      (('\n' :: t).takeWhile (fun d => d == '\n')).length from by omega]
    exact hdec
  · have := congrArg List.length hdec
    simp only [List.length_cons, List.length_append, List.length_replicate] at this
    omega

theorem mem_of_replicate_append {l : List Char} {m : Nat} {L : List (List Char)}
    (hne : l ≠ []) (h : l ∈ List.replicate m ([] : List Char) ++ L) : l ∈ L := by
  rcases List.mem_append.mp h with h1 | h2
  · exact absurd (List.eq_of_mem_replicate h1) hne
  · exact h2

theorem tail_replicate_append (m : Nat) (x : List Char) (L : List (List Char)) :
    (List.replicate (m + 1) x ++ L).tail = List.replicate m x ++ L := by
  simp [List.replicate_succ]

theorem collapseAux_pos_cons_other {d : Char} (hd : d ≠ '\n') (m : Nat) (w' : List Char) :
    ∃ j, collapseAux (m + 1) (d :: w') =
      List.replicate (j + 1) '\n' ++ d :: collapseAux 0 w' := by
  rw [collapseAux_cons_other hd]
  by_cases h3 : 3 ≤ m + 1
  · exact ⟨1, by rw [if_pos h3]⟩
  · refine ⟨m, by rw [if_neg h3]⟩

theorem splitLines_collapse_mem : ∀ (n : Nat) (s : List Char), s.length ≤ n →
    (∀ l, l ≠ [] → l ∈ splitLines s → l ∈ splitLines (collapseAux 0 s)) ∧
    (∀ l, l ≠ [] → l ∈ (splitLines s).tail → l ∈ (splitLines (collapseAux 0 s)).tail) := by
  intro n
  induction n with
  | zero =>
    intro s h
    have hs : s = [] := List.eq_nil_of_length_eq_zero (Nat.le_zero.mp h)
    subst hs
    constructor
    · intro l hl hmem
      simp only [splitLines, List.mem_singleton] at hmem
      exact absurd hmem hl
    · intro l _ hmem
      simp only [splitLines, List.tail_cons] at hmem
      exact absurd hmem (List.not_mem_nil l)
  | succ n ih =>
    intro s h
    cases s with
    | nil => exact ih [] (by simp)
    | cons c t =>
      simp only [List.length_cons] at h
      by_cases hc : c = '\n'
      · subst hc
        obtain ⟨m, w, hdec, hw, hwlen⟩ := nl_run_decomp' t
        cases w with
        | nil =>
          constructor
          · intro l hl hmem
            rw [hdec, splitLines_replicate] at hmem
            have := mem_of_replicate_append hl hmem
            simp only [splitLines, List.mem_singleton] at this
            exact absurd this hl
          · intro l hl hmem
            rw [hdec, splitLines_replicate, tail_replicate_append] at hmem
            have := mem_of_replicate_append hl hmem
            simp only [splitLines, List.mem_singleton] at this
            exact absurd this hl
        | cons d w' =>
          have hd : d ≠ '\n' := by
            have : (d == '\n') = false := by simpa [headNotNl] using hw
            exact beq_eq_false_iff_ne.mp this
          have hsplit : splitLines ('\n' :: t) =
              List.replicate (m + 1) [] ++ splitLines (d :: w') := by
            rw [hdec]; exact splitLines_replicate (m + 1) (d :: w')
          have hcol : collapseAux 0 ('\n' :: t) = collapseAux (m + 1) (d :: w') := by
            rw [hdec]
            have := collapseAux_replicate (m + 1) 0 (d :: w')
            simpa using this
          obtain ⟨j, hcol2⟩ := collapseAux_pos_cons_other hd m w'
          have hdw : collapseAux 0 (d :: w') = d :: collapseAux 0 w' := by
            rw [collapseAux_cons_other hd]
            simp [List.replicate]
          have hsplitc : splitLines (collapseAux 0 ('\n' :: t)) =
              List.replicate (j + 1) [] ++ splitLines (collapseAux 0 (d :: w')) := by
            rw [hcol, hcol2, splitLines_replicate, hdw]
          have hlen2 : (d :: w').length ≤ n := by
            simp only [List.length_cons] at hwlen ⊢
            omega
          obtain ⟨ihM, _⟩ := ih (d :: w') hlen2
          constructor
          · intro l hl hmem
            rw [hsplit] at hmem
            have hin := ihM l hl (mem_of_replicate_append hl hmem)
            rw [hsplitc]
            exact List.mem_append_right _ hin
          · intro l hl hmem
            rw [hsplit, tail_replicate_append] at hmem
            have hin := ihM l hl (mem_of_replicate_append hl hmem)
            rw [hsplitc, tail_replicate_append]
            exact List.mem_append_right _ hin
      · obtain ⟨l₀, ls, ls', hsp, hspc⟩ := splitLines_collapse_head t
        have hsp2 : splitLines (c :: t) = (c :: l₀) :: ls := splitLines_cons_other hc t hsp
        have hcol : collapseAux 0 (c :: t) = c :: collapseAux 0 t := by
          rw [collapseAux_cons_other hc]
          simp [List.replicate]
        have hspc2 : splitLines (collapseAux 0 (c :: t)) = (c :: l₀) :: ls' := by
          rw [hcol]; exact splitLines_cons_other hc _ hspc
        obtain ⟨_, ihT⟩ := ih t (by omega)
        constructor
        · intro l hl hmem
          rw [hsp2] at hmem
          rcases List.mem_cons.mp hmem with h1 | h2
          · rw [hspc2, h1]; exact List.mem_cons_self _ _
          · have hmt : l ∈ (splitLines t).tail := by rw [hsp]; exact h2
            have := ihT l hl hmt
            rw [hspc] at this
            rw [hspc2]
            exact List.mem_cons_of_mem _ (by simpa using this)
        · intro l hl hmem
          rw [hsp2] at hmem
          simp only [List.tail_cons] at hmem
          have hmt : l ∈ (splitLines t).tail := by rw [hsp]; exact hmem
          have := ihT l hl hmt
          rw [hspc] at this
          rw [hspc2]
          simpa using this

/-! A maximal run of three or more newlines becomes exactly two at its
location: the collapse distributes over such a run. -/

theorem lastNotNl_cons {c : Char} {u : List Char} (h : lastNotNl (c :: u) = true) :
    lastNotNl u = true := by
  cases u with
  | nil => rfl
  | cons d u' => exact h

theorem lastNotNl_replicate_false : ∀ m : Nat,
    lastNotNl (List.replicate (m + 1) '\n') = false := by
  intro m
  induction m with
  | zero => rfl
  | succ m ih =>
    rw [List.replicate_succ]
    exact ih

theorem lastNotNl_append {w : List Char} (hw : w ≠ []) :
    ∀ x : List Char, lastNotNl (x ++ w) = lastNotNl w := by
  intro x
  induction x with
  | nil => rfl
  | cons a x' ih =>
    rw [List.cons_append]
    cases hx : x' ++ w with
    | nil => exact absurd (List.append_eq_nil.mp hx).2 hw
    | cons b t =>
      show lastNotNl (b :: t) = lastNotNl w
      rw [← hx]
      exact ih

theorem collapseAux_big_clean {v : List Char} (hv : headNotNl v = true)
    {k : Nat} (hk : 3 ≤ k) : collapseAux k v = nl2 ++ collapseAux 0 v := by
  rw [collapseAux_big v k hk]
  congr 1
  cases v with
  | nil => rfl
  | cons d v' =>
    have : (d == '\n') = false := by simpa [headNotNl] using hv
    rw [List.dropWhile_cons, this]
    rfl

theorem collapse_run_head {v : List Char} (hv : headNotNl v = true)
    {k : Nat} (hk : 3 ≤ k) :
    collapseAux 0 (List.replicate k '\n' ++ v) = nl2 ++ collapseAux 0 v := by
  rw [collapseAux_replicate]
  rw [Nat.zero_add]
  exact collapseAux_big_clean hv hk

theorem collapse_append_run : ∀ (n : Nat) (u : List Char), u.length ≤ n →
    lastNotNl u = true → ∀ {k : Nat}, 3 ≤ k → ∀ {v : List Char}, headNotNl v = true →
    collapseAux 0 (u ++ List.replicate k '\n' ++ v) =
      collapseAux 0 u ++ nl2 ++ collapseAux 0 v := by
  intro n
  induction n with
  | zero =>
    intro u hlen _ k hk v hv
    have hu : u = [] := List.eq_nil_of_length_eq_zero (Nat.le_zero.mp hlen)
    subst hu
    simp only [List.nil_append]
    rw [collapse_run_head hv hk]
    rfl
  | succ n ih =>
    intro u hlen hlast k hk v hv
    cases u with
    | nil =>
      simp only [List.nil_append]
      rw [collapse_run_head hv hk]
      rfl
    | cons c u' =>
      simp only [List.length_cons] at hlen
      by_cases hc : c = '\n'
      · subst hc
        obtain ⟨m, w, hdec, hw, hwlen⟩ := nl_run_decomp' u'
        cases w with
        | nil =>
          rw [hdec, List.append_nil] at hlast
          exact absurd hlast (by rw [lastNotNl_replicate_false]; simp)
        | cons d w' =>
          have hd : d ≠ '\n' := by
            have : (d == '\n') = false := by simpa [headNotNl] using hw
            exact beq_eq_false_iff_ne.mp this
          have hlastw : lastNotNl (d :: w') = true := by
            rw [hdec, lastNotNl_append (by simp)] at hlast
            exact hlast
          have hlast' : lastNotNl w' = true := lastNotNl_cons hlastw
          have hlen' : w'.length ≤ n := by
            simp only [List.length_cons] at hwlen
            omega
          have hih := ih w' hlen' hlast' hk hv
          rw [hdec]
          rw [List.append_assoc, List.append_assoc]
          rw [collapseAux_replicate]
          simp only [Nat.zero_add]
          rw [← List.append_assoc]
          rw [show (d :: w') ++ List.replicate k '\n' ++ v =
            d :: (w' ++ List.replicate k '\n' ++ v) from by simp]
          rw [collapseAux_cons_other hd, hih]
          rw [collapseAux_replicate]
          simp only [Nat.zero_add]
          rw [collapseAux_cons_other hd]
          simp [List.append_assoc]
      · have hlast' : lastNotNl u' = true := lastNotNl_cons hlast
        have hih := ih u' (by omega) hlast' hk hv
        have h1 : collapseAux 0 ((c :: u') ++ List.replicate k '\n' ++ v) =
            c :: collapseAux 0 (u' ++ List.replicate k '\n' ++ v) := by
          rw [List.cons_append, List.cons_append, collapseAux_cons_other hc]
          rfl
        have h2 : collapseAux 0 (c :: u') = c :: collapseAux 0 u' := by
          rw [collapseAux_cons_other hc]
          rfl
        rw [h1, hih, h2]
        simp [List.append_assoc]

/-! Concrete buffers used by the end-to-end claims. -/

set_option maxRecDepth 100000
set_option maxHeartbeats 2000000

/-- The end-to-end scenario input of the spec. -/
def scenarioInput : String :=
  "logger.info('✅ AGENT LOADED (v3)', \x7b id: 1 \x7d);\nlogger.error('boom');\n\n\n\nlogger.debug('⏱️ PERF', 5);\n"

/-- Output the spec's end-to-end scenario expects. -/
def scenarioSpecOutput : String := "logger.error('boom');\n\nlogger.debug('⏱️ PERF', 5);\n"

/-- Output the script actually produces on the scenario input. -/
def scenarioActualOutput : String :=
  "\nlogger.error('boom');\n\nlogger.debug('⏱️ PERF', 5);\n"

/-- Buffer on which removing one `GREETING SENT` call splices together a new
occurrence of the same call. -/
def doubledGreeting : String :=
  "logger.logger.info('✅ GREETING SENT (v13)');info('✅ GREETING SENT (v13)');"

/-- Buffer on which removing a `Closing Deepgram` call splices together a
`GREETING SENT` call, whose own pattern has already run in catalogue order. -/
def spliceInput : String :=
  "logger.logger.info('Closing Deepgram streaming connection');info('✅ GREETING SENT (v13)');"

/-- Buffer whose only line holds both an error call and a removable call. -/
def sharedLineInput : String :=
  "logger.error('x'); logger.info('✅ GREETING SENT (v13)');\n"

/-- The protected-but-altered line of `sharedLineInput`. -/
def sharedLine : List Char :=
  "logger.error('x'); logger.info('✅ GREETING SENT (v13)');".data

/-! Claim-level results. -/

/-- C1 (counterexample): on the spec's end-to-end scenario input the script
does not produce the spec's expected output — the removed `AGENT LOADED` call
leaves its trailing newline behind, so the actual output starts with a
newline. -/
theorem C1_spec_scenario_fails : transformStr scenarioInput ≠ scenarioSpecOutput := by
  decide

/-- C1 (amended): running the transformation (all 73 pattern substitutions in
order, then the blank-line collapse) on the scenario buffer yields the spec's
expected output with one leading newline prepended. -/
theorem C1_scenario_value : transformStr scenarioInput = scenarioActualOutput := by
  decide

/-- C2 (counterexample): the ordered pattern catalogue does not contain 70
patterns. -/
theorem C2_not_seventy : logs_to_remove.length ≠ 70 := by decide

/-- C2 (amended): the ordered pattern list contains exactly 73 patterns, and
the buffer undergoes exactly one global substitution pass per pattern, in
catalogue order, between load and write. -/
theorem C2_pattern_count :
    logs_to_remove.length = 73 ∧ ∀ s, removeLogs s = applyAll logs_to_remove s := by
  refine ⟨by decide, ?_⟩
  intro s
  show logs_to_remove.foldl (fun c p => reSub p [] c) s = _
  generalize logs_to_remove = l
  induction l generalizing s with
  | nil => rfl
  | cons p ps ih => simp [List.foldl_cons, applyAll, ih]

/-- C3 (counterexample): the transformation is not idempotent: on this buffer
removing the inner `GREETING SENT` call splices together a new occurrence,
which only a second run removes. -/
theorem C3_not_idempotent :
    transformStr (transformStr doubledGreeting) ≠ transformStr doubledGreeting := by
  decide

/-- C3 (amended): the transformation is idempotent on every buffer whose
once-transformed image the substitution passes leave unchanged (no residual
pattern match); the blank-line collapse alone is always idempotent, so a
second full run changes nothing on such buffers. -/
theorem C3_idempotent_of_fixed :
    ∀ s : List Char, removeLogs (transform s) = transform s →
      transform (transform s) = transform s := by
  intro s h
  show reSub emptyLinesPattern nl2 (removeLogs (transform s)) = transform s
  rw [h]
  exact transform_collapse_again s

/-- C3 (witness): a concrete instance of the amended idempotence. -/
theorem C3_idempotent_of_fixed_witness :
    transform (transform "x\n\n\n\ny".data) = transform "x\n\n\n\ny".data :=
  C3_idempotent_of_fixed "x\n\n\n\ny".data (by decide)

/-- C4: the final collapse pass rewrites the buffer exactly as the
run-collapsing function `collapseSpec` (every newline run of length three or
more becomes two newlines, shorter runs survive unchanged), and in particular
a maximal run of three or more newlines anywhere in the buffer becomes exactly
two newlines at that location. -/
theorem C4_collapse :
    (∀ s, reSub emptyLinesPattern nl2 s = collapseSpec s) ∧
    (∀ (u v : List Char) (k : Nat), 3 ≤ k → lastNotNl u = true → headNotNl v = true →
      reSub emptyLinesPattern nl2 (u ++ List.replicate k '\n' ++ v) =
        collapseSpec u ++ nl2 ++ collapseSpec v) := by
  refine ⟨reSub_empty_lines, ?_⟩
  intro u v k hk hu hv
  rw [reSub_empty_lines]
  exact collapse_append_run u.length u le_rfl hu hk hv

/-- C4 (witness): a maximal run of four newlines between `a` and `b` becomes
exactly two. -/
theorem C4_collapse_witness :
    reSub emptyLinesPattern nl2 ("a".data ++ List.replicate 4 '\n' ++ "b".data) =
      collapseSpec "a".data ++ nl2 ++ collapseSpec "b".data :=
  C4_collapse.2 "a".data "b".data 4 (by omega) (by decide) (by decide)

/-- C5 (counterexample): a line containing a `logger.error` call is altered
when the same line also contains a removable call, so the preservation claim
fails as a universal statement. -/
theorem C5_protected_line_lost :
    protectedLine sharedLine = true ∧
    sharedLine ∈ splitLines sharedLineInput.data ∧
    sharedLine ∉ splitLines (transform sharedLineInput.data) :=
  ⟨by decide, by decide, by decide⟩

/-- C5 (amended): on any buffer the substitution passes leave unchanged (no
pattern match anywhere), every line containing a `logger.error` call or a
stopwatch-marked `.info`/`.debug` call is present unchanged among the output's
lines; in general a protected line can be altered when a pattern match
overlaps it. -/
theorem C5_preserved_of_no_match :
    ∀ s : List Char, removeLogs s = s →
      ∀ l, protectedLine l = true → l ∈ splitLines s →
        l ∈ splitLines (transform s) := by
  intro s hs l hp hmem
  have hl : l ≠ [] := fun he => absurd (he ▸ hp) (by decide)
  have htr : transform s = collapseAux 0 s := by
    show reSub emptyLinesPattern nl2 (removeLogs s) = _
    rw [hs]
    exact reSub_empty_lines s
  rw [htr]
  exact (splitLines_collapse_mem s.length s le_rfl).1 l hl hmem

/-- C5 (witness): a protected error line survives on a match-free buffer. -/
theorem C5_preserved_witness :
    "logger.error('e');".data ∈
      splitLines (transform "logger.error('e');\n\n\n\nrest\n".data) :=
  C5_preserved_of_no_match "logger.error('e');\n\n\n\nrest\n".data (by decide)
    "logger.error('e');".data (by decide) (by decide)

/-- C6: each substitution pass removes every non-overlapping match globally
(the scanner emits the replacement — here empty — and continues right after
each match), every wildcard of the catalogue is a trailing-content matcher
immediately closed by the literal `);`, and the two modes behave as specified:
the bounded mode matches trailing content containing no newline and no
earlier `);`; the multi-line mode matches trailing content containing no
earlier `);` but possibly spanning newlines. -/
theorem C6_modes :
    (∀ (p : List RTok) (c : Char) (s r : List Char),
        matchToks p (c :: s) = some r → r.length ≤ s.length →
        reSub p [] (c :: s) = reSub p [] r) ∧
    (logs_to_remove.all shapeOK = true) ∧
    (∀ s r, matchToks [RTok.lazyLine, RTok.lit ')', RTok.lit ';'] s = some r →
      ∃ mid, s = mid ++ ')' :: ';' :: r ∧ containsB [')', ';'] mid = false ∧
        mid.all (fun d => !(d == '\n')) = true) ∧
    (∀ s r, matchToks [RTok.lazyAll, RTok.lit ')', RTok.lit ';'] s = some r →
      ∃ mid, s = mid ++ ')' :: ';' :: r ∧ containsB [')', ';'] mid = false) ∧
    (matchToks [RTok.lazyAll, RTok.lit ')', RTok.lit ';'] "a\nb);".data = some [] ∧
      matchToks [RTok.lazyLine, RTok.lit ')', RTok.lit ';'] "a\nb);".data = none) := by
  refine ⟨?_, by decide, lazyLine_mode, lazyAll_mode, by decide, by decide⟩
  intro p c s r h hr
  rw [reSub_cons_match [] h hr]
  rfl

/-- C6 (witness): the bounded mode instantiated on a concrete buffer. -/
theorem C6_modes_witness :
    ∃ mid, "ab);rest".data = mid ++ ')' :: ';' :: "rest".data ∧
      containsB [')', ';'] mid = false ∧ mid.all (fun d => !(d == '\n')) = true :=
  C6_modes.2.2.1 "ab);rest".data "rest".data (by decide)

/-- C7 (counterexample): applying the passes in reversed catalogue order (a
permutation of the catalogue) yields a different buffer: in catalogue order
the `GREETING SENT` pattern runs before the `Closing Deepgram` pattern, so
the occurrence spliced together by the latter's removal survives; in the
reversed order it is removed. -/
theorem C7_order_matters :
    (logs_to_remove.reverse).Perm logs_to_remove ∧
    logs_to_remove.reverse.foldl (fun c p => reSub p [] c) spliceInput.data ≠
      removeLogs spliceInput.data :=
  ⟨List.reverse_perm _, by decide⟩

/-- C7 (amended): pattern order can affect the result (see the
counterexample); the passes are applied sequentially over the evolving buffer
in the given order, and order-independence does hold on every buffer on which
no pattern can match — e.g. any buffer with no occurrence of `logger.`, a
prefix every catalogue pattern requires. -/
theorem C7_perm_no_match :
    ∀ (l : List (List RTok)) (s : List Char), l.Perm logs_to_remove →
      containsB "logger.".data s = false →
      l.foldl (fun c p => reSub p [] c) s = removeLogs s := by
  intro l s hperm hs
  have h1 : l.foldl (fun c p => reSub p [] c) s = s :=
    foldl_id_of_no_logger l (fun p hp => hperm.mem_iff.mp hp) s hs
  have h2 : removeLogs s = s :=
    foldl_id_of_no_logger logs_to_remove (fun p hp => hp) s hs
  rw [h1, h2]

/-- C7 (witness): concrete instance of the amended order statement. -/
theorem C7_perm_no_match_witness :
    logs_to_remove.reverse.foldl (fun c p => reSub p [] c) "hello\n".data =
      removeLogs "hello\n".data :=
  C7_perm_no_match logs_to_remove.reverse "hello\n".data (List.reverse_perm _) (by decide)

/-- C8: when the read fails (path unreadable, or content not valid UTF-8) the
run ends in an error, the file keeps its prior state — the write never
happens — and nothing is printed; there is no retry and no partial write. -/
theorem C8_read_failure :
    ∀ f : ScriptFile, f.readable = false ∨ f.utf8 = false →
      (runScript f).1 = f ∧ (runScript f).2 = Except.error () := by
  intro f hf
  have hb : (f.readable && f.utf8) = false := by
    rcases hf with h | h <;> simp [h]
  simp [runScript, hb]

/-- C8 (witness): a concrete unreadable file is left untouched. -/
theorem C8_read_failure_witness :
    (runScript ⟨false, true, "keep"⟩).1 = ⟨false, true, "keep"⟩ ∧
    (runScript ⟨false, true, "keep"⟩).2 = Except.error () :=
  C8_read_failure ⟨false, true, "keep"⟩ (Or.inl rfl)

/-- C9: the transformation never lengthens the buffer, and neither does any
single pass: every empty-replacement pattern pass and the blank-line collapse
are length non-increasing. -/
theorem C9_length :
    (∀ s, (transform s).length ≤ s.length) ∧
    (∀ (p : List RTok) (t : List Char), (reSub p [] t).length ≤ t.length) ∧
    (∀ t : List Char, (reSub emptyLinesPattern nl2 t).length ≤ t.length) := by
  refine ⟨transform_length_le, fun p t => reSub_nil_repl_length p t, ?_⟩
  intro t
  rw [reSub_empty_lines]
  show (collapseAux 0 t).length ≤ t.length
  have h := collapseAux_length t 0
  rw [if_neg (by omega)] at h
  simpa using h

/-- C10: the run is a deterministic pure function of the file content alone:
two successful runs on files holding equal content write equal content back
and print the same summary. -/
theorem C10_deterministic :
    ∀ f₁ f₂ : ScriptFile, f₁.content = f₂.content →
      f₁.readable = true → f₁.utf8 = true → f₂.readable = true → f₂.utf8 = true →
      (runScript f₁).1.content = (runScript f₂).1.content ∧
      (runScript f₁).2 = (runScript f₂).2 := by
  intro f₁ f₂ hc h1 h2 h3 h4
  simp [runScript, h1, h2, h3, h4, hc]

/-- C10 (witness): concrete runs on equal content agree. -/
theorem C10_deterministic_witness :
    (runScript ⟨true, true, "abc"⟩).1.content = (runScript ⟨true, true, "abc"⟩).1.content ∧
    (runScript ⟨true, true, "abc"⟩).2 = (runScript ⟨true, true, "abc"⟩).2 :=
  C10_deterministic ⟨true, true, "abc"⟩ ⟨true, true, "abc"⟩ rfl rfl rfl rfl rfl

end CleanupLogs
